import Mathlib

/-!
Shallow embedding of `src/stat_functions.py` — the functions `analyze_array`
(descriptive statistics and the Kolmogorov-Smirnov normality preparation) and
`goal_maker` (tie-aware percentile rank and percentile-goal seeking).

Machine floats are modelled by `RawVal`: an exact rational, NaN, or a signed
infinity.  The numeric cores of both functions are modelled over lists of exact
rationals (the cleaned, finite-valued population); the cleaning step of lines
16-17 / 92-93, which can see NaN and infinite raw values, is modelled
separately over `RawVal`.
-/

/-- Model of an IEEE double as either a finite rational, NaN, or a signed
infinity.  `nan` also stands for a missing raw value, which
`np.asarray(_, dtype=float)` converts to NaN before the filter runs. -/
inductive RawVal where
  | fin (q : ℚ)
  | nan
  | pinf
  | ninf
deriving DecidableEq, Repr

namespace RawVal

/-- Model of elementwise `np.isnan`.  Note it is false on both infinities. -/
def isnan : RawVal → Bool
  | .nan => true
  | _ => false

/-- A value is finite when it is a finite rational — neither NaN nor infinite. -/
def isFinite : RawVal → Bool
  | .fin _ => true
  | _ => false

end RawVal

/-- Model of the cleaning step, lines 16-17 and 92-93:
`x = np.asarray(x, dtype=float); x = x[~np.isnan(x)]`.
It keeps exactly the elements that are not NaN; infinities pass the filter. -/
def clean (xs : List RawVal) : List RawVal := xs.filter (fun v => !v.isnan)

/-- IEEE division of two exact finite values: `0/0` is NaN, `±a/0` is `±∞`,
otherwise the exact quotient. -/
def fdiv (a b : ℚ) : RawVal :=
  if b = 0 then (if a = 0 then .nan else if 0 < a then .pinf else .ninf)
  else .fin (a / b)

/-- Rational stand-in for `np.sqrt` on finite values: exact on perfect squares
of rationals (the only inputs at which the theorems below evaluate it);
elsewhere it rounds the numerator and denominator roots down, standing in for
floating-point rounding of the irrational true root. -/
def qsqrt (q : ℚ) : ℚ := (Nat.sqrt q.num.toNat : ℚ) / (Nat.sqrt q.den : ℚ)

/-- IEEE square root on the float model: NaN for NaN or negative input,
`+∞` for `+∞`. -/
def sqrtRV : RawVal → RawVal
  | .nan => .nan
  | .pinf => .pinf
  | .ninf => .nan
  | .fin q => if q < 0 then .nan else .fin (qsqrt q)

/-- Division of a float-model value by an exact rational. -/
def RawVal.divQ : RawVal → ℚ → RawVal
  | .nan, _ => .nan
  | .pinf, q => if q < 0 then .ninf else .pinf
  | .ninf, q => if q < 0 then .pinf else .ninf
  | .fin a, q => fdiv a q

/-- Subtraction of an exact rational from a float-model value. -/
def RawVal.subQ : RawVal → ℚ → RawVal
  | .nan, _ => .nan
  | .pinf, _ => .pinf
  | .ninf, _ => .ninf
  | .fin a, q => .fin (a - q)

/-- Division of an exact rational by a float-model value: dividing by an
infinity gives zero, by NaN gives NaN, by a finite value is `fdiv`. -/
def qdivRV (a : ℚ) : RawVal → RawVal
  | .nan => .nan
  | .pinf => .fin 0
  | .ninf => .fin 0
  | .fin d => fdiv a d

/-- Sorted copy of the sample, as produced inside `np.percentile`, `np.median`
and `scipy.stats.mode`. -/
def sortQ (x : List ℚ) : List ℚ := x.insertionSort (· ≤ ·)

/-- Model of `np.percentile(x, p)` with its default linear interpolation
(lines 42 and 117): the virtual rank position is `p/100 * (n-1)` and the value
is interpolated between the two bracketing order statistics of the sorted
sample, the upper index clipped to `n-1`. -/
def percentile (x : List ℚ) (p : ℚ) : ℚ :=
  let s := sortQ x
  let n := x.length
  let h := p / 100 * ((n : ℚ) - 1)
  let i := (⌊h⌋).toNat
  let j := min (i + 1) (n - 1)
  s.getD i 0 + (h - (i : ℚ)) * (s.getD j 0 - s.getD i 0)

/-- Model of `lt = np.sum(x < s)` (line 103): how many population values lie
strictly below the score. -/
def countLT (x : List ℚ) (s : ℚ) : ℕ := x.countP (fun v => decide (v < s))

/-- Model of `le = np.sum(x <= s)` (line 104). -/
def countLE (x : List ℚ) (s : ℚ) : ℕ := x.countP (fun v => decide (v ≤ s))

/-- Failure outcomes of `goal_maker`: the empty-population early return
(lines 95-97), the `ValueError` raised for an unknown tie method (line 113),
and the `ValueError` that Python's `max(())` raises on line 146 when the
target tuple is empty. -/
inductive GoalError where
  | emptyPopulation
  | invalidTiePolicy
  | emptyTargets
deriving DecidableEq, Repr

/-- Percentile rank of a score within the population, lines 95-113 of
`goal_maker`: the empty-population check runs first; then the rank is computed
by dispatch on the tie-method string, with `ValueError` for an unknown
string. -/
def pctRank (x : List ℚ) (s : ℚ) (tie : String) : Except GoalError ℚ :=
  if x.length = 0 then .error .emptyPopulation
  else
    let n : ℚ := (x.length : ℚ)
    let lt : ℚ := (countLT x s : ℚ)
    let le : ℚ := (countLE x s : ℚ)
    if tie = "strict" then .ok (100 * (lt / n))
    else if tie = "weak" then .ok (100 * (le / n))
    else if tie = "mean" then .ok (100 * ((lt + le) / 2 / n))
    else .error .invalidTiePolicy

/-- The "next milestone" coaching outcome of lines 131-146 of `goal_maker`. -/
inductive Milestone where
  | alreadyAtNext (p : ℚ)
  | aimFor (p threshold gap : ℚ)
  | atOrAboveHighest (p : ℚ)
deriving DecidableEq, Repr

/-- Outcome record of `goal_maker`: the values it prints (and that its
commented-out return statement would log). -/
structure GoalReport where
  n : ℕ
  score : ℚ
  rank : ℚ
  thresholds : List (ℚ × ℚ)
  milestone : Milestone
deriving DecidableEq, Repr

/-- Model of `targets = tuple(sorted(set(targets)))` (line 116). -/
def dedupSort (ts : List ℚ) : List ℚ := sortQ ts.dedup

/-- Model of `goal_maker` (lines 80-146) on an already-cleaned finite-valued
population: percentile rank of the score, thresholds of the deduplicated
sorted targets, and the milestone recommendation.  `higher` keeps the sorted
order of the targets, so its head is Python's `min(higher)`, and the last
element of the sorted target list is Python's `max(targets)`. -/
def goalMaker (score : ℚ) (x : List ℚ) (targets : List ℚ) (tie : String) :
    Except GoalError GoalReport :=
  match pctRank x score tie with
  | .error e => .error e
  | .ok r =>
    let ts := dedupSort targets
    let thresholds := ts.map (fun p => (p, percentile x p))
    let higher := ts.filter (fun p => decide (r < p))
    match higher with
    | [] =>
      match ts.getLast? with
      | none => .error .emptyTargets
      | some pmax => .ok ⟨x.length, score, r, thresholds, .atOrAboveHighest pmax⟩
    | nextP :: _ =>
      let gap := percentile x nextP - score
      if gap ≤ 0 then .ok ⟨x.length, score, r, thresholds, .alreadyAtNext nextP⟩
      else .ok ⟨x.length, score, r, thresholds, .aimFor nextP (percentile x nextP) gap⟩

/-- Outcome record of `analyze_array`: the `stats` dict of lines 28-43 plus
the standardized sample and KS critical value of lines 46-49.  The KS
statistic itself comes from the external `scipy.stats.kstest` call and is not
modelled; the normality verdict depends only on it and `criticalValue`. -/
structure StatsReport where
  count : ℕ
  total : ℚ
  mean : ℚ
  standardError : RawVal
  median : ℚ
  mode : ℚ
  standardDeviation : RawVal
  sampleVariance : RawVal
  skewness : RawVal
  kurtosis : RawVal
  minimum : ℚ
  maximum : ℚ
  range : ℚ
  percentileValues : List (ℚ × ℚ)
  zScores : List RawVal
  criticalValue : ℚ
deriving DecidableEq, Repr

/-- Model of `np.median`: mean of the two middle order statistics (which
coincide when the length is odd). -/
def medianOf (x : List ℚ) : ℚ :=
  let s := sortQ x
  let n := x.length
  (s.getD ((n - 1) / 2) 0 + s.getD (n / 2) 0) / 2

/-- Model of `scipy.stats.mode(x).mode`: a value of highest frequency; scipy
returns the smallest such value, which the left fold over the sorted sample
reproduces because only a strictly larger count replaces the current best. -/
def modeOf (x : List ℚ) : ℚ :=
  let s := sortQ x
  s.foldl (fun best v => if s.count v > s.count best then v else best) (s.getD 0 0)

/-- Model of `analyze_array` (lines 4-54) on an already-cleaned finite-valued
sample: `none` models the "No valid numeric data" early return of lines 19-21.
`x.std(ddof=1)` is `sqrt(ssd/(n-1))` and `np.var(x, ddof=1)` is `ssd/(n-1)`,
both a `0/0` (hence NaN) when `n = 1`; `scipy.stats.skew` is `m3 / m2^(3/2)`
and `scipy.stats.kurtosis` is `m4 / m2^2 - 3` with biased moments `m_k`. -/
def analyzeArray (x : List ℚ) (percentiles : List ℚ) : Option StatsReport :=
  if x.length = 0 then none
  else
    let n := x.length
    let nq : ℚ := (n : ℚ)
    let meanVal := x.sum / nq
    let ssd := (x.map (fun v => (v - meanVal) ^ 2)).sum
    let stdVal := sqrtRV (fdiv ssd (nq - 1))
    let m2 := ssd / nq
    let m3 := (x.map (fun v => (v - meanVal) ^ 3)).sum / nq
    let m4 := (x.map (fun v => (v - meanVal) ^ 4)).sum / nq
    let s := sortQ x
    some
      { count := n
        total := x.sum
        mean := meanVal
        standardError := stdVal.divQ (qsqrt nq)
        median := medianOf x
        mode := modeOf x
        standardDeviation := stdVal
        sampleVariance := fdiv ssd (nq - 1)
        skewness := fdiv m3 (qsqrt (m2 ^ 3))
        kurtosis := (fdiv m4 (m2 ^ 2)).subQ 3
        minimum := s.getD 0 0
        maximum := s.getD (n - 1) 0
        range := s.getD (n - 1) 0 - s.getD 0 0
        percentileValues := percentiles.map (fun p => (p, percentile x p))
        zScores := x.map (fun v => qdivRV (v - meanVal) stdVal)
        criticalValue := (136 / 100 : ℚ) / qsqrt nq }

/-- The population of Scenario E: the integers 1 through 100. -/
def pop100 : List ℚ := (List.range 100).map (fun k => ((k + 1 : ℕ) : ℚ))

/-- Decidable equality for `Except`, so that concrete outcomes of `pctRank`
and `goalMaker` can be checked by evaluation. -/
instance {ε α : Type} [DecidableEq ε] [DecidableEq α] : DecidableEq (Except ε α)
  | .ok a, .ok b =>
    if h : a = b then .isTrue (by rw [h])
    else .isFalse (fun hc => h (by injection hc))
  | .ok _, .error _ => .isFalse (fun hc => Except.noConfusion hc)
  | .error _, .ok _ => .isFalse (fun hc => Except.noConfusion hc)
  | .error a, .error b =>
    if h : a = b then .isTrue (by rw [h])
    else .isFalse (fun hc => h (by injection hc))

set_option maxRecDepth 20000

/-! ## Basic facts about the sorted copy -/

lemma sortQ_perm (x : List ℚ) : (sortQ x).Perm x := List.perm_insertionSort _ _

lemma sortQ_sorted (x : List ℚ) : (sortQ x).Sorted (· ≤ ·) :=
  List.sorted_insertionSort _ _

lemma sortQ_length (x : List ℚ) : (sortQ x).length = x.length :=
  (sortQ_perm x).length_eq

/-! ## Claim C1 -/

/-- C1: for every non-empty population and every score, the percentile-rank
computation returns `100*lt/n` under the "strict" tie policy, `100*le/n` under
"weak", and `100*((lt+le)/2)/n` under "mean", where `lt`/`le` count the
population values strictly below / at most the score. -/
theorem pctRank_tie_policy_formulas (x : List ℚ) (s : ℚ) (hx : x ≠ []) :
    pctRank x s "strict" = .ok (100 * ((countLT x s : ℚ) / (x.length : ℚ))) ∧
    pctRank x s "weak" = .ok (100 * ((countLE x s : ℚ) / (x.length : ℚ))) ∧
    pctRank x s "mean" =
      .ok (100 * (((countLT x s : ℚ) + (countLE x s : ℚ)) / 2 / (x.length : ℚ))) := by
  have h0 : ¬ x.length = 0 := by simpa using List.length_pos.mpr hx |>.ne'
  refine ⟨?_, ?_, ?_⟩ <;> simp [pctRank, h0]

/-- Witness for C1 at population `[1, 2, 3]` and score `2`. -/
theorem pctRank_tie_policy_formulas_witness :
    ([1, 2, 3] : List ℚ) ≠ [] ∧
    pctRank [1, 2, 3] 2 "strict" = .ok (100 * ((1 : ℚ) / 3)) := by
  have h := (pctRank_tie_policy_formulas [1, 2, 3] 2 (by decide)).1
  refine ⟨by decide, ?_⟩
  rw [h]
  with_unfolding_all decide

/-! ## Claim C2 -/

lemma sortQ_pop100 : sortQ pop100 = pop100 := by with_unfolding_all decide

lemma pop100_length : pop100.length = 100 := by with_unfolding_all decide

lemma perc_pop100_80 : percentile pop100 80 = 401 / 5 := by
  have hfl : (⌊(80 : ℚ) / 100 * (((100 : ℕ) : ℚ) - 1)⌋).toNat = 79 := by
    with_unfolding_all decide
  have hg1 : pop100.getD 79 0 = 80 := by with_unfolding_all decide
  have hg2 : pop100.getD (min (79 + 1) (100 - 1)) 0 = 81 := by with_unfolding_all decide
  simp only [percentile, sortQ_pop100, pop100_length, hfl, hg1, hg2]
  push_cast
  norm_num

lemma perc_pop100_90 : percentile pop100 90 = 901 / 10 := by
  have hfl : (⌊(90 : ℚ) / 100 * (((100 : ℕ) : ℚ) - 1)⌋).toNat = 89 := by
    with_unfolding_all decide
  have hg1 : pop100.getD 89 0 = 90 := by with_unfolding_all decide
  have hg2 : pop100.getD (min (89 + 1) (100 - 1)) 0 = 91 := by with_unfolding_all decide
  simp only [percentile, sortQ_pop100, pop100_length, hfl, hg1, hg2]
  push_cast
  norm_num

lemma perc_pop100_95 : percentile pop100 95 = 1901 / 20 := by
  have hfl : (⌊(95 : ℚ) / 100 * (((100 : ℕ) : ℚ) - 1)⌋).toNat = 94 := by
    with_unfolding_all decide
  have hg1 : pop100.getD 94 0 = 95 := by with_unfolding_all decide
  have hg2 : pop100.getD (min (94 + 1) (100 - 1)) 0 = 96 := by with_unfolding_all decide
  simp only [percentile, sortQ_pop100, pop100_length, hfl, hg1, hg2]
  push_cast
  norm_num

lemma perc_pop100_99 : percentile pop100 99 = 9901 / 100 := by
  have hfl : (⌊(99 : ℚ) / 100 * (((100 : ℕ) : ℚ) - 1)⌋).toNat = 98 := by
    with_unfolding_all decide
  have hg1 : pop100.getD 98 0 = 99 := by with_unfolding_all decide
  have hg2 : pop100.getD (min (98 + 1) (100 - 1)) 0 = 100 := by with_unfolding_all decide
  simp only [percentile, sortQ_pop100, pop100_length, hfl, hg1, hg2]
  push_cast
  norm_num

lemma rank_pop100_mean : pctRank pop100 95 "mean" = .ok (189 / 2) := by
  have hlt : countLT pop100 95 = 94 := by with_unfolding_all decide
  have hle : countLE pop100 95 = 95 := by with_unfolding_all decide
  simp only [pctRank, pop100_length, hlt, hle]
  norm_num
  rw [if_neg (by decide : ¬("mean" = "strict")), if_neg (by decide : ¬("mean" = "weak"))]

lemma goalMaker_pop100_eval :
    goalMaker 95 pop100 [80, 90, 95, 99] "mean" =
      .ok ⟨100, 95, 189 / 2,
        [(80, 401 / 5), (90, 901 / 10), (95, 1901 / 20), (99, 9901 / 100)],
        .aimFor 95 (1901 / 20) (1 / 20)⟩ := by
  have hds : dedupSort [80, 90, 95, 99] = [80, 90, 95, 99] := by with_unfolding_all decide
  have hf : ([80, 90, 95, 99] : List ℚ).filter (fun p => decide ((189 : ℚ) / 2 < p)) =
      [95, 99] := by
    with_unfolding_all decide
  simp only [goalMaker, rank_pop100_mean, hds, hf, List.map_cons, List.map_nil,
    perc_pop100_80, perc_pop100_90, perc_pop100_95, perc_pop100_99, pop100_length]
  norm_num

/-- C2 counterexample: on the population 1..100 with score 95 and targets
80/90/95/99 the Mean-policy rank is 94.5 — not ≈ 95.5 — and the milestone the
code selects is the 95th percentile with threshold 95.05 and gap 0.05, not the
99th with threshold 99.01. -/
theorem scenarioE_counterexample :
    goalMaker 95 pop100 [80, 90, 95, 99] "mean" =
      .ok ⟨100, 95, 189 / 2,
        [(80, 401 / 5), (90, 901 / 10), (95, 1901 / 20), (99, 9901 / 100)],
        .aimFor 95 (1901 / 20) (1 / 20)⟩ ∧
    (189 / 2 : ℚ) ≠ 191 / 2 ∧
    Milestone.aimFor 95 (1901 / 20) (1 / 20) ≠ .aimFor 99 (9901 / 100) (401 / 100) := by
  refine ⟨goalMaker_pop100_eval, by norm_num, ?_⟩
  intro hc
  injection hc with h1 h2 h3
  exact absurd h1 (by norm_num)

/-- C2 amended: on the population 1..100 with score 95 and targets 80/90/95/99
the goal maker computes Mean-rank 94.5, selects 95 as the next milestone, and
reports threshold 95.05 with gap 0.05 (the 99th-percentile threshold, 99.01,
appears only in the threshold table). -/
theorem scenarioE_amended :
    goalMaker 95 pop100 [80, 90, 95, 99] "mean" =
      .ok ⟨100, 95, 189 / 2,
        [(80, 401 / 5), (90, 901 / 10), (95, 1901 / 20), (99, 9901 / 100)],
        .aimFor 95 (1901 / 20) (1 / 20)⟩ :=
  goalMaker_pop100_eval

/-! ## Claim C3 -/

/-- C3 counterexample: the cleaning step keeps infinities — only NaN is
filtered by `~np.isnan`, so the cleaned sample need not be all-finite. -/
theorem clean_keeps_infinity_counterexample :
    clean [RawVal.pinf, RawVal.nan, RawVal.ninf, RawVal.fin 3] =
      [RawVal.pinf, RawVal.ninf, RawVal.fin 3] ∧
    RawVal.pinf.isFinite = false := by
  decide

/-- C3 amended: the cleaning step drops exactly the NaN elements (missing raw
values having been converted to NaN by the float conversion); infinities are
retained, so the cleaned sample is NaN-free but not necessarily all-finite. -/
theorem clean_mem_iff (xs : List RawVal) (v : RawVal) :
    v ∈ clean xs ↔ v ∈ xs ∧ v ≠ RawVal.nan := by
  have hb : ∀ w : RawVal, (!w.isnan) = true ↔ w ≠ RawVal.nan := by
    intro w; cases w <;> simp [RawVal.isnan]
  simp only [clean, List.mem_filter, hb]

/-! ## Claim C10 -/

/-- C10: on an empty population the rank computation returns the
empty-population outcome for every tie-method string — including strings
outside strict/weak/mean — and the invalid-tie-policy error is never reached,
both for the rank step itself and for the whole goal maker. -/
theorem emptyPopulation_checked_before_tie_validation (s : ℚ) (ts : List ℚ) (tie : String) :
    pctRank [] s tie = .error .emptyPopulation ∧
    goalMaker s [] ts tie = .error .emptyPopulation ∧
    GoalError.emptyPopulation ≠ GoalError.invalidTiePolicy := by
  refine ⟨rfl, ?_, by decide⟩
  simp [goalMaker, pctRank]

/-! ## Claim C7 -/

lemma countLT_le_countLE (x : List ℚ) (s : ℚ) : countLT x s ≤ countLE x s := by
  refine List.countP_mono_left fun v _ hv => ?_
  simp only [decide_eq_true_eq] at hv ⊢
  exact le_of_lt hv

/-- C7: for every non-empty population and every score, the three tie policies
are ordered: strict rank ≤ mean rank ≤ weak rank. -/
theorem tie_policy_monotonicity (x : List ℚ) (s a b c : ℚ)
    (hs : pctRank x s "strict" = .ok a)
    (hm : pctRank x s "mean" = .ok b)
    (hw : pctRank x s "weak" = .ok c) :
    a ≤ b ∧ b ≤ c := by
  have h0 : ¬ x.length = 0 := by
    intro h
    rw [pctRank, if_pos h] at hs
    exact Except.noConfusion hs
  simp only [pctRank, if_neg h0] at hs hm hw
  rw [if_pos trivial] at hs
  rw [if_neg (by decide : ¬("mean" = "strict")), if_neg (by decide : ¬("mean" = "weak")),
    if_pos trivial] at hm
  rw [if_neg (by decide : ¬("weak" = "strict")), if_pos trivial] at hw
  injection hs with hs
  injection hm with hm
  injection hw with hw
  have hlt : (countLT x s : ℚ) ≤ (countLE x s : ℚ) := by
    exact_mod_cast countLT_le_countLE x s
  have hn : (0 : ℚ) < (x.length : ℚ) := by
    have h1 : 0 < x.length := Nat.pos_of_ne_zero h0
    exact_mod_cast h1
  subst hs hm hw
  refine ⟨?_, ?_⟩
  · gcongr
    linarith
  · gcongr
    linarith

/-- Witness for C7 at population `[1, 2, 2]` and score `2`. -/
theorem tie_policy_monotonicity_witness :
    pctRank [1, 2, 2] 2 "strict" = .ok (100 / 3) ∧
    pctRank [1, 2, 2] 2 "mean" = .ok (200 / 3) ∧
    pctRank [1, 2, 2] 2 "weak" = .ok 100 ∧
    (100 / 3 : ℚ) ≤ 200 / 3 ∧ (200 / 3 : ℚ) ≤ 100 := by
  have h := tie_policy_monotonicity [1, 2, 2] 2 (100 / 3) (200 / 3) 100
    (by with_unfolding_all decide) (by with_unfolding_all decide)
    (by with_unfolding_all decide)
  exact ⟨by with_unfolding_all decide, by with_unfolding_all decide,
    by with_unfolding_all decide, h.1, h.2⟩

/-! ## Claim C4 -/

/-- C4 counterexample: on the singleton sample `[1]` the analysis does not
fail — there is no `InsufficientSample` outcome anywhere in the code — and the
five statistics that need n ≥ 2 are all silently NaN (from `0/0` float
divisions). -/
theorem insufficientSample_counterexample :
    (analyzeArray [1] []).map
        (fun r => (r.sampleVariance, r.standardDeviation, r.standardError,
          r.skewness, r.kurtosis)) =
      some (.nan, .nan, .nan, .nan, .nan) := by
  with_unfolding_all decide

/-- C4 amended: for every singleton sample the analysis returns a report
rather than an `InsufficientSample` failure, and the variance, standard
deviation, standard error, skewness and kurtosis fields of that report are
all NaN. -/
theorem analyzeArray_singleton_nan (q : ℚ) :
    ∃ r, analyzeArray [q] [] = some r ∧ r.sampleVariance = RawVal.nan ∧
      r.standardDeviation = RawVal.nan ∧ r.standardError = RawVal.nan ∧
      r.skewness = RawVal.nan ∧ r.kurtosis = RawVal.nan := by
  simp only [analyzeArray, List.length_cons, List.length_nil]
  norm_num
  with_unfolding_all decide

/-! ## Claim C5 -/

/-- C5 counterexample: on the constant sample `[5, 5, 5, 5]` the sample
standard deviation is zero, yet no `DegenerateSample` failure occurs: the
analysis returns a report whose standardized sample is all-NaN (the `0/0`
divisions of the standardization step). -/
theorem degenerateSample_counterexample :
    (analyzeArray [5, 5, 5, 5] []).map
        (fun r => (r.standardDeviation, r.sampleVariance, r.zScores)) =
      some (RawVal.fin 0, RawVal.fin 0,
        [RawVal.nan, RawVal.nan, RawVal.nan, RawVal.nan]) := by
  with_unfolding_all decide

/-- C5 amended: for every constant sample of size at least two the standard
deviation is exactly zero and the normality sub-procedure does not fail with a
`DegenerateSample` error; instead the standardization divides by zero and
every z-score is NaN, and the analysis still returns a report. -/
theorem analyzeArray_constant_sample_nan (k : ℕ) (c : ℚ) (hk : 2 ≤ k) :
    ∃ r, analyzeArray (List.replicate k c) [] = some r ∧
      r.standardDeviation = RawVal.fin 0 ∧
      r.sampleVariance = RawVal.fin 0 ∧
      r.zScores = List.replicate k RawVal.nan := by
  have h0 : ¬ (k = 0) := by omega
  have hkQ : ((k : ℕ) : ℚ) ≠ 0 := by
    exact_mod_cast h0
  have hk1 : ¬ ((k : ℚ) - 1 = 0) := by
    have h2 : (2 : ℚ) ≤ (k : ℚ) := by exact_mod_cast hk
    intro hc
    nlinarith
  have hq0 : qsqrt 0 = 0 := by with_unfolding_all decide
  have hmean : (k : ℚ) * c / (k : ℚ) = c := mul_div_cancel_left₀ c hkQ
  simp only [analyzeArray, List.length_replicate, if_neg h0, List.sum_replicate,
    nsmul_eq_mul, hmean, List.map_replicate, sub_self, ne_eq, OfNat.ofNat_ne_zero,
    not_false_eq_true, zero_pow, smul_zero, fdiv, if_neg hk1, zero_div, sqrtRV,
    hq0, qdivRV]
  norm_num

/-- Witness for C5's amended theorem at the constant sample `[5, 5, 5, 5]`
(size 4). -/
theorem analyzeArray_constant_sample_nan_witness :
    2 ≤ 4 ∧
    ∃ r, analyzeArray (List.replicate 4 (5 : ℚ)) [] = some r ∧
      r.standardDeviation = RawVal.fin 0 ∧
      r.sampleVariance = RawVal.fin 0 ∧
      r.zScores = List.replicate 4 RawVal.nan :=
  ⟨by norm_num, analyzeArray_constant_sample_nan 4 5 (by norm_num)⟩

/-! ## Claim C9 -/

lemma dedupSort_sorted (ts : List ℚ) : (dedupSort ts).Sorted (· ≤ ·) :=
  List.sorted_insertionSort _ _

lemma mem_dedupSort (ts : List ℚ) (p : ℚ) : p ∈ dedupSort ts ↔ p ∈ ts := by
  rw [dedupSort, sortQ, (List.perm_insertionSort _ _).mem_iff]
  exact List.mem_dedup

lemma dedupSort_ne_nil (ts : List ℚ) (h : ts ≠ []) : dedupSort ts ≠ [] := by
  obtain ⟨a, ha⟩ := List.exists_mem_of_ne_nil ts h
  intro hc
  have hm := (mem_dedupSort ts a).mpr ha
  rw [hc] at hm
  cases hm

lemma sorted_le_getLast (s : List ℚ) (hs : s.Sorted (· ≤ ·)) (a : ℚ) (ha : a ∈ s)
    (h : s ≠ []) : a ≤ s.getLast h := by
  obtain ⟨⟨i, hi⟩, rfl⟩ := List.mem_iff_get.mp ha
  have hgl : s.getLast h = s.get ⟨s.length - 1, by omega⟩ := by
    rw [List.getLast_eq_getElem]
    rfl
  rw [hgl]
  rcases eq_or_lt_of_le (Nat.le_pred_of_lt hi) with heq | hlt
  · exact le_of_eq (congrArg s.get (Fin.ext heq))
  · exact hs.rel_get_of_lt hlt

/-- C9 counterexample: for the empty target set no target exceeds the current
rank, yet the goal maker does not report an at-or-above-highest-target state —
it fails, modelling the uncaught `ValueError` that Python's `max(())` raises
on line 146. -/
theorem goalMaker_empty_targets_counterexample :
    goalMaker 0 [1] [] "mean" = .error .emptyTargets := by
  with_unfolding_all decide

/-- C9 amended: for every non-empty population, every score, and every
NON-EMPTY target set, the goal maker run under the default Mean policy
succeeds and selects as next milestone the smallest target strictly above the
current Mean rank, with threshold `percentile x p` and gap `threshold − score`;
it reports the milestone as already achieved when that gap is ≤ 0; and when no
target exceeds the current rank it reports the at-or-above-highest-target
state naming the largest target. -/
theorem goalMaker_milestone_selection (sc : ℚ) (x ts : List ℚ)
    (hx : x ≠ []) (hts : ts ≠ []) :
    ∃ r, goalMaker sc x ts "mean" = .ok r ∧
      pctRank x sc "mean" = .ok r.rank ∧
      (∀ p, r.milestone = .atOrAboveHighest p →
        (∀ q ∈ ts, q ≤ r.rank) ∧ p ∈ ts ∧ ∀ q ∈ ts, q ≤ p) ∧
      (∀ p t g, r.milestone = .aimFor p t g →
        p ∈ ts ∧ r.rank < p ∧ (∀ q ∈ ts, r.rank < q → p ≤ q) ∧
        t = percentile x p ∧ g = t - sc ∧ 0 < g) ∧
      (∀ p, r.milestone = .alreadyAtNext p →
        p ∈ ts ∧ r.rank < p ∧ (∀ q ∈ ts, r.rank < q → p ≤ q) ∧
        percentile x p - sc ≤ 0) := by
  have h0 : ¬ x.length = 0 := by
    simpa using (List.length_pos.mpr hx).ne'
  have hrank : pctRank x sc "mean" =
      .ok (100 * (((countLT x sc : ℚ) + (countLE x sc : ℚ)) / 2 / (x.length : ℚ))) := by
    rw [pctRank, if_neg h0]
    rw [if_neg (by decide : ¬("mean" = "strict")), if_neg (by decide : ¬("mean" = "weak")),
      if_pos (rfl : "mean" = "mean")]
  set m : ℚ := 100 * (((countLT x sc : ℚ) + (countLE x sc : ℚ)) / 2 / (x.length : ℚ)) with hm
  cases hh : (dedupSort ts).filter (fun p => decide (m < p)) with
  | nil =>
    have hnil : ∀ q ∈ dedupSort ts, ¬ m < q := by
      intro q hq
      have hq2 := List.filter_eq_nil_iff.mp hh q hq
      simpa using hq2
    have hne := dedupSort_ne_nil ts hts
    simp only [goalMaker, hrank, hh, List.getLast?_eq_getLast _ hne]
    refine ⟨_, rfl, rfl, ?_, ?_, ?_⟩
    · intro p hp
      injection hp with hp
      subst hp
      refine ⟨?_, ?_, ?_⟩
      · intro q hq
        exact not_lt.mp (hnil q ((mem_dedupSort ts q).mpr hq))
      · exact (mem_dedupSort ts _).mp (List.getLast_mem hne)
      · intro q hq
        exact sorted_le_getLast _ (dedupSort_sorted ts) q ((mem_dedupSort ts q).mpr hq) hne
    · intro p t g hp
      cases hp
    · intro p hp
      cases hp
  | cons nextP rest =>
    have hmem : nextP ∈ (dedupSort ts).filter (fun p => decide (m < p)) := by
      rw [hh]; exact List.mem_cons_self _ _
    have hnp : nextP ∈ dedupSort ts ∧ m < nextP := by
      have h1 := List.mem_filter.mp hmem
      exact ⟨h1.1, by simpa using h1.2⟩
    have hminimal : ∀ q ∈ ts, m < q → nextP ≤ q := by
      intro q hq hmq
      have hqf : q ∈ (dedupSort ts).filter (fun p => decide (m < p)) := by
        rw [List.mem_filter]
        exact ⟨(mem_dedupSort ts q).mpr hq, by simpa using hmq⟩
      rw [hh] at hqf
      rcases List.mem_cons.mp hqf with rfl | hqr
      · exact le_refl _
      · have hsf : ((dedupSort ts).filter (fun p => decide (m < p))).Sorted (· ≤ ·) :=
          (dedupSort_sorted ts).filter _
        rw [hh] at hsf
        exact List.rel_of_sorted_cons hsf q hqr
    by_cases hg : percentile x nextP - sc ≤ 0
    · simp only [goalMaker, hrank, hh]
      rw [if_pos hg]
      refine ⟨_, rfl, rfl, ?_, ?_, ?_⟩
      · intro p hp; cases hp
      · intro p t g hp; cases hp
      · intro p hp
        injection hp with hp
        subst hp
        exact ⟨(mem_dedupSort ts _).mp hnp.1, hnp.2, hminimal, hg⟩
    · simp only [goalMaker, hrank, hh]
      rw [if_neg hg]
      refine ⟨_, rfl, rfl, ?_, ?_, ?_⟩
      · intro p hp; cases hp
      · intro p t g hp
        injection hp with hp1 hp2 hp3
        subst hp1; subst hp2; subst hp3
        exact ⟨(mem_dedupSort ts _).mp hnp.1, hnp.2, hminimal, rfl, rfl, by linarith⟩
      · intro p hp; cases hp

/-- Witness for C9's amended theorem at population `[1, 2]`, score `0`,
targets `[50]`. -/
theorem goalMaker_milestone_selection_witness :
    ([1, 2] : List ℚ) ≠ [] ∧ ([50] : List ℚ) ≠ [] ∧
    (∃ r, goalMaker 0 [1, 2] [50] "mean" = .ok r ∧
      pctRank [1, 2] 0 "mean" = .ok r.rank ∧
      (∀ p, r.milestone = .atOrAboveHighest p →
        (∀ q ∈ ([50] : List ℚ), q ≤ r.rank) ∧ p ∈ ([50] : List ℚ) ∧
          ∀ q ∈ ([50] : List ℚ), q ≤ p) ∧
      (∀ p t g, r.milestone = .aimFor p t g →
        p ∈ ([50] : List ℚ) ∧ r.rank < p ∧
        (∀ q ∈ ([50] : List ℚ), r.rank < q → p ≤ q) ∧
        t = percentile [1, 2] p ∧ g = t - 0 ∧ 0 < g) ∧
      (∀ p, r.milestone = .alreadyAtNext p →
        p ∈ ([50] : List ℚ) ∧ r.rank < p ∧
        (∀ q ∈ ([50] : List ℚ), r.rank < q → p ≤ q) ∧
        percentile [1, 2] p - 0 ≤ 0)) :=
  ⟨by decide, by decide,
    goalMaker_milestone_selection 0 [1, 2] [50] (by decide) (by decide)⟩

/-! ## Claim C6 -/

lemma sortQ_eq_of_sorted_perm (x s : List ℚ) (hperm : s.Perm x)
    (hsort : s.Sorted (· ≤ ·)) : sortQ x = s :=
  List.eq_of_perm_of_sorted ((sortQ_perm x).trans hperm.symm) (sortQ_sorted x) hsort

lemma goalMaker_ok_thresholds (sc : ℚ) (x ts : List ℚ) (tie : String) (r : GoalReport)
    (hr : goalMaker sc x ts tie = .ok r) :
    r.thresholds = (dedupSort ts).map (fun p => (p, percentile x p)) := by
  cases hpc : pctRank x sc tie with
  | error e =>
    simp only [goalMaker, hpc] at hr
    cases hr
  | ok m =>
    cases hh : (dedupSort ts).filter (fun p => decide (m < p)) with
    | nil =>
      cases hgl : (dedupSort ts).getLast? with
      | none =>
        simp only [goalMaker, hpc, hh, hgl] at hr
        cases hr
      | some pmax =>
        simp only [goalMaker, hpc, hh, hgl] at hr
        injection hr with hr
        rw [← hr]
    | cons nextP rest =>
      by_cases hg : percentile x nextP - sc ≤ 0
      · simp only [goalMaker, hpc, hh, if_pos hg] at hr
        injection hr with hr
        rw [← hr]
      · simp only [goalMaker, hpc, hh, if_neg hg] at hr
        injection hr with hr
        rw [← hr]

lemma analyzeArray_some_percentileValues (x ps : List ℚ) (g : StatsReport)
    (hg : analyzeArray x ps = some g) :
    g.percentileValues = ps.map (fun p => (p, percentile x p)) := by
  by_cases h0 : x.length = 0
  · simp only [analyzeArray, h0] at hg
    cases hg
  · simp only [analyzeArray, h0, if_false] at hg
    injection hg with hg
    rw [← hg]

/-- C6: for every non-empty sample and percentile p in [0, 100], the
percentile value is the linear interpolation between the two order statistics
bracketing rank position `p/100 * (n-1)` of the sorted sample (stated for any
sorted permutation `s` of the sample), and the descriptive-statistics
percentile map and the goal-seeking thresholds carry identical values for the
same percentile, since both call the same `np.percentile`. -/
theorem percentile_interpolation_and_threshold_consistency
    (x s ps ts : List ℚ) (p sc q v1 v2 : ℚ) (tie : String)
    (g : StatsReport) (r : GoalReport)
    (hx : x ≠ []) (hp0 : 0 ≤ p) (hp100 : p ≤ 100)
    (hperm : s.Perm x) (hsort : s.Sorted (· ≤ ·))
    (hg : analyzeArray x ps = some g) (hr : goalMaker sc x ts tie = .ok r)
    (hv1 : (q, v1) ∈ g.percentileValues) (hv2 : (q, v2) ∈ r.thresholds) :
    percentile x p =
      s.getD (⌊p / 100 * ((x.length : ℚ) - 1)⌋).toNat 0 +
        (p / 100 * ((x.length : ℚ) - 1) -
          ((⌊p / 100 * ((x.length : ℚ) - 1)⌋).toNat : ℚ)) *
          (s.getD (min ((⌊p / 100 * ((x.length : ℚ) - 1)⌋).toNat + 1) (x.length - 1)) 0 -
            s.getD (⌊p / 100 * ((x.length : ℚ) - 1)⌋).toNat 0) ∧
    v1 = v2 := by
  constructor
  · simp only [percentile, sortQ_eq_of_sorted_perm x s hperm hsort]
  · have e1 := analyzeArray_some_percentileValues x ps g hg
    rw [e1] at hv1
    obtain ⟨p1, hm1, he1⟩ := List.mem_map.mp hv1
    rw [Prod.mk.injEq] at he1
    have e2 := goalMaker_ok_thresholds sc x ts tie r hr
    rw [e2] at hv2
    obtain ⟨p2, hm2, he2⟩ := List.mem_map.mp hv2
    rw [Prod.mk.injEq] at he2
    rw [← he1.2, ← he2.2, he1.1, he2.1]

/-- Witness for C6 at sample `[2, 1]` (sorted copy `[1, 2]`), percentile 50,
comparing the percentile map of `analyze_array` and the thresholds of
`goal_maker` at target 50. -/
theorem percentile_interpolation_and_threshold_consistency_witness :
    ([2, 1] : List ℚ) ≠ [] ∧ (0 : ℚ) ≤ 50 ∧ (50 : ℚ) ≤ 100 ∧
    ([1, 2] : List ℚ).Perm [2, 1] ∧ ([1, 2] : List ℚ).Sorted (· ≤ ·) ∧
    analyzeArray [2, 1] [50] =
      some ⟨2, 3, 3 / 2, .fin 1, 3 / 2, 1, .fin 1, .fin (1 / 2), .fin 0, .fin (-2),
        1, 2, 1, [(50, 3 / 2)], [.fin (1 / 2), .fin (-1 / 2)], 34 / 25⟩ ∧
    goalMaker 0 [2, 1] [50] "mean" =
      .ok ⟨2, 0, 0, [(50, 3 / 2)], .aimFor 50 (3 / 2) (3 / 2)⟩ ∧
    ((50 : ℚ), (3 / 2 : ℚ)) ∈ [((50 : ℚ), (3 / 2 : ℚ))] ∧
    (percentile [2, 1] 50 =
      ([1, 2] : List ℚ).getD (⌊(50 : ℚ) / 100 * ((([2, 1] : List ℚ).length : ℚ) - 1)⌋).toNat 0 +
        ((50 : ℚ) / 100 * ((([2, 1] : List ℚ).length : ℚ) - 1) -
          ((⌊(50 : ℚ) / 100 * ((([2, 1] : List ℚ).length : ℚ) - 1)⌋).toNat : ℚ)) *
          (([1, 2] : List ℚ).getD
              (min ((⌊(50 : ℚ) / 100 * ((([2, 1] : List ℚ).length : ℚ) - 1)⌋).toNat + 1)
                (([2, 1] : List ℚ).length - 1)) 0 -
            ([1, 2] : List ℚ).getD (⌊(50 : ℚ) / 100 * ((([2, 1] : List ℚ).length : ℚ) - 1)⌋).toNat 0) ∧
      (3 / 2 : ℚ) = 3 / 2) := by
  refine ⟨by decide, by norm_num, by norm_num, by decide, by decide,
    by with_unfolding_all decide, by with_unfolding_all decide, by norm_num, ?_⟩
  exact percentile_interpolation_and_threshold_consistency [2, 1] [1, 2] [50] [50]
    50 0 50 (3 / 2) (3 / 2) "mean"
    ⟨2, 3, 3 / 2, .fin 1, 3 / 2, 1, .fin 1, .fin (1 / 2), .fin 0, .fin (-2),
      1, 2, 1, [(50, 3 / 2)], [.fin (1 / 2), .fin (-1 / 2)], 34 / 25⟩
    ⟨2, 0, 0, [(50, 3 / 2)], .aimFor 50 (3 / 2) (3 / 2)⟩
    (by decide) (by norm_num) (by norm_num) (by decide) (by decide)
    (by with_unfolding_all decide) (by with_unfolding_all decide)
    (by norm_num) (by norm_num)

/-! ## Claim C8 -/

lemma sorted_countLE_ge (s : List ℚ) (v : ℚ) :
    ∀ i, s.Sorted (· ≤ ·) → i < s.length → s.getD i 0 ≤ v →
      i + 1 ≤ s.countP (fun a => decide (a ≤ v)) := by
  induction s with
  | nil =>
    intro i _ hi _
    simp at hi
  | cons a t ih =>
    intro i hs hi hv
    cases i with
    | zero =>
      have ha : a ≤ v := by simpa using hv
      rw [List.countP_cons, if_pos (by simpa using ha)]
      omega
    | succ i =>
      have hst := hs.of_cons
      have hit : i < t.length := by simpa using hi
      have hgv : t.getD i 0 ≤ v := by simpa using hv
      have h1 := ih i hst hit hgv
      have hmem : t.getD i 0 ∈ t := by
        rw [List.getD_eq_getElem t 0 hit]
        exact List.getElem_mem hit
      have hav : a ≤ v := le_trans (List.rel_of_sorted_cons hs _ hmem) hgv
      rw [List.countP_cons, if_pos (by simpa using hav)]
      omega

lemma sorted_countLT_le (s : List ℚ) (v : ℚ) :
    ∀ j, s.Sorted (· ≤ ·) → j < s.length → v ≤ s.getD j 0 →
      s.countP (fun a => decide (a < v)) ≤ j := by
  induction s with
  | nil =>
    intro j _ _ _
    simp
  | cons a t ih =>
    intro j hs hj hv
    cases j with
    | zero =>
      have hva : v ≤ a := by simpa using hv
      have hz : (a :: t).countP (fun b => decide (b < v)) = 0 := by
        rw [List.countP_eq_zero]
        intro b hb
        rcases List.mem_cons.mp hb with rfl | hbt
        · simpa using not_lt.mpr hva
        · exact by simpa using not_lt.mpr (le_trans hva (List.rel_of_sorted_cons hs b hbt))
      omega
    | succ j =>
      have h1 := ih j hs.of_cons (by simpa using hj) (by simpa using hv)
      rw [List.countP_cons]
      have h2 : (if decide (a < v) = true then 1 else 0) ≤ 1 := by
        split <;> omega
      omega

lemma count_percentile_bounds (x : List ℚ) (p : ℚ)
    (hx : x ≠ []) (hp0 : 0 ≤ p) (hp1 : p ≤ 100) :
    p / 100 * ((x.length : ℚ) - 1) ≤ (countLE x (percentile x p) : ℚ) ∧
    (countLT x (percentile x p) : ℚ) ≤ p / 100 * ((x.length : ℚ) - 1) + 1 := by
  have h0 : x.length ≠ 0 := by simpa using (List.length_pos.mpr hx).ne'
  have hn1 : 1 ≤ x.length := Nat.pos_of_ne_zero h0
  have hslen : (sortQ x).length = x.length := sortQ_length x
  have hsorted := sortQ_sorted x
  set nq : ℚ := (x.length : ℚ) with hnq
  set h : ℚ := p / 100 * (nq - 1) with hh
  set i : ℕ := (⌊h⌋).toNat with hi
  set j : ℕ := min (i + 1) (x.length - 1) with hj
  have hval : percentile x p =
      (sortQ x).getD i 0 + (h - (i : ℚ)) * ((sortQ x).getD j 0 - (sortQ x).getD i 0) := rfl
  have hn1q : (1 : ℚ) ≤ nq := by rw [hnq]; exact_mod_cast hn1
  have hq_nonneg : 0 ≤ h := by
    rw [hh]
    have h2 : 0 ≤ p / 100 := by positivity
    nlinarith
  have hfl : (0 : ℤ) ≤ ⌊h⌋ := Int.floor_nonneg.mpr hq_nonneg
  have hiq : ((i : ℕ) : ℚ) = ((⌊h⌋ : ℤ) : ℚ) := by
    rw [hi]
    exact_mod_cast Int.toNat_of_nonneg hfl
  have hile : (i : ℚ) ≤ h := by rw [hiq]; exact Int.floor_le h
  have hlt1 : h < (i : ℚ) + 1 := by rw [hiq]; exact Int.lt_floor_add_one h
  have hp1' : p / 100 ≤ 1 := (div_le_one (by norm_num : (0 : ℚ) < 100)).mpr hp1
  have hhub : h ≤ nq - 1 := by
    rw [hh]
    nlinarith
  have hi_lt : i < x.length := by
    have h2 : (i : ℚ) < nq := by linarith
    rw [hnq] at h2
    exact_mod_cast h2
  have hi_lt_s : i < (sortQ x).length := by rw [hslen]; exact hi_lt
  have hj_lt : j < x.length := by rw [hj]; omega
  have hij : i ≤ j := by rw [hj]; omega
  have hgd : (sortQ x).getD i 0 ≤ (sortQ x).getD j 0 := by
    rcases eq_or_lt_of_le hij with heq | hlt
    · rw [heq]
    · rw [List.getD_eq_getElem _ _ hi_lt_s,
        List.getD_eq_getElem _ _ (by rw [hslen]; exact hj_lt)]
      have hrel := @List.Sorted.rel_get_of_lt _ _ _ hsorted
        ⟨i, hi_lt_s⟩ ⟨j, by rw [hslen]; exact hj_lt⟩ hlt
      simpa using hrel
  have hfrac0 : 0 ≤ h - (i : ℚ) := by linarith
  have hfrac1 : h - (i : ℚ) ≤ 1 := by linarith
  have hvlo : (sortQ x).getD i 0 ≤ percentile x p := by
    rw [hval]
    nlinarith [mul_nonneg hfrac0 (sub_nonneg.mpr hgd)]
  have hvhi : percentile x p ≤ (sortQ x).getD j 0 := by
    rw [hval]
    nlinarith [mul_le_of_le_one_left (sub_nonneg.mpr hgd) hfrac1]
  have hperm := sortQ_perm x
  constructor
  · have hcle : i + 1 ≤ (sortQ x).countP (fun a => decide (a ≤ percentile x p)) :=
      sorted_countLE_ge (sortQ x) (percentile x p) i hsorted hi_lt_s hvlo
    have heq : (sortQ x).countP (fun a => decide (a ≤ percentile x p)) =
        countLE x (percentile x p) := hperm.countP_eq _
    rw [heq] at hcle
    have : ((i : ℕ) : ℚ) + 1 ≤ (countLE x (percentile x p) : ℚ) := by
      exact_mod_cast hcle
    linarith
  · have hclt : (sortQ x).countP (fun a => decide (a < percentile x p)) ≤ i + 1 := by
      by_cases hcase : i + 1 ≤ x.length - 1
      · have hj_eq : j = i + 1 := by rw [hj]; omega
        refine sorted_countLT_le (sortQ x) (percentile x p) (i + 1) hsorted ?_ ?_
        · rw [hslen]; omega
        · rw [← hj_eq]; exact hvhi
      · have hle_len : (sortQ x).countP (fun a => decide (a < percentile x p)) ≤
            (sortQ x).length := List.countP_le_length _
        rw [hslen] at hle_len
        omega
    have heq : (sortQ x).countP (fun a => decide (a < percentile x p)) =
        countLT x (percentile x p) := hperm.countP_eq _
    rw [heq] at hclt
    have : (countLT x (percentile x p) : ℚ) ≤ ((i : ℕ) : ℚ) + 1 := by
      exact_mod_cast hclt
    linarith

/-- C8 amended: for a non-empty population and target p in [0, 100] the
round-trip bounds hold up to a 100/n quantization error: the Weak rank of
threshold(p) is at least `p*(n-1)/n`, and the Strict rank of threshold(p) is
at most `(p*(n-1) + 100)/n`.  The unquantized bounds `Weak ≥ p` and
`Strict ≤ p` of the original claim fail. -/
theorem rank_threshold_round_trip (x : List ℚ) (p w st : ℚ)
    (hx : x ≠ []) (hp0 : 0 ≤ p) (hp1 : p ≤ 100)
    (hw : pctRank x (percentile x p) "weak" = .ok w)
    (hst : pctRank x (percentile x p) "strict" = .ok st) :
    p * ((x.length : ℚ) - 1) / (x.length : ℚ) ≤ w ∧
    st ≤ (p * ((x.length : ℚ) - 1) + 100) / (x.length : ℚ) := by
  have h0 : ¬ x.length = 0 := by simpa using (List.length_pos.mpr hx).ne'
  have hnq_pos : (0 : ℚ) < (x.length : ℚ) := by
    exact_mod_cast Nat.pos_of_ne_zero h0
  simp only [pctRank, if_neg h0] at hw hst
  rw [if_neg (by decide : ¬("weak" = "strict")), if_pos trivial] at hw
  rw [if_pos trivial] at hst
  injection hw with hw
  injection hst with hst
  obtain ⟨hb1, hb2⟩ := count_percentile_bounds x p hx hp0 hp1
  subst hw
  subst hst
  constructor
  · rw [← mul_div_assoc]
    exact (div_le_div_iff_of_pos_right hnq_pos).mpr (by nlinarith)
  · rw [← mul_div_assoc]
    exact (div_le_div_iff_of_pos_right hnq_pos).mpr (by nlinarith)


/-- C8 counterexample: for population `[0, 10]` the round-trip fails in both
directions.  At target 10 the threshold is 1 and its Strict rank is 50, which
is not ≤ 10; at target 60 the threshold is 6 and its Weak rank is 50, which is
not ≥ 60. -/
theorem rank_threshold_round_trip_counterexample :
    percentile [0, 10] 10 = 1 ∧
    pctRank [0, 10] 1 "strict" = .ok 50 ∧
    ¬((50 : ℚ) ≤ 10) ∧
    percentile [0, 10] 60 = 6 ∧
    pctRank [0, 10] 6 "weak" = .ok 50 ∧
    ¬((60 : ℚ) ≤ 50) := by
  refine ⟨by with_unfolding_all decide, by with_unfolding_all decide, by norm_num,
    by with_unfolding_all decide, by with_unfolding_all decide, by norm_num⟩

/-- Witness for C8's amended theorem at population `[1, 2]` and target 50. -/
theorem rank_threshold_round_trip_witness :
    ([1, 2] : List ℚ) ≠ [] ∧ (0 : ℚ) ≤ 50 ∧ (50 : ℚ) ≤ 100 ∧
    pctRank [1, 2] (percentile [1, 2] 50) "weak" = .ok 50 ∧
    pctRank [1, 2] (percentile [1, 2] 50) "strict" = .ok 50 ∧
    ((50 : ℚ) * ((([1, 2] : List ℚ).length : ℚ) - 1) / (([1, 2] : List ℚ).length : ℚ) ≤ 50 ∧
      (50 : ℚ) ≤
        ((50 : ℚ) * ((([1, 2] : List ℚ).length : ℚ) - 1) + 100) /
          (([1, 2] : List ℚ).length : ℚ)) := by
  refine ⟨by decide, by norm_num, by norm_num, by with_unfolding_all decide,
    by with_unfolding_all decide, ?_⟩
  exact rank_threshold_round_trip [1, 2] 50 50 50 (by decide) (by norm_num) (by norm_num)
    (by with_unfolding_all decide) (by with_unfolding_all decide)
